import Mathlib

/-!
Verification of the meeting-transcriber orchestration core.

This file gives a shallow embedding, in Lean 4, of the transcription
pipeline of the repository: transcript refinement
(`tami/backend/app/services/refinement.py`), the Whisper retry/classify
logic (`src/transcription/whisper.py`), the Ivrit provider
(`src/transcription/ivrit.py`), language-based provider routing
(`tami/backend/app/services/transcription.py`), round-robin speaker
labeling (`src/diarization/speaker_labeler.py`), the summarizer fallback
(`tami/backend/lib/summarization/summarizer.py`), entity deduplication
(`tami/backend/app/services/entity_extraction.py`) and the text-import
transcript parser (`tami/backend/app/services/transcript_parser.py`).

Network calls are modelled by passing the outcome of the call (success
value or raised-exception message) as an explicit argument; everything
else is translated directly from the Python source.

String operations (strip, split, lower, substring containment) are
re-implemented structurally over `List Char` so that every definition
reduces in the kernel.  Python `str.strip`/`\s` cover a couple more rare
whitespace code points than `Char.isWhitespace`; none of the strings in
this development contain them.
-/

set_option autoImplicit false

namespace MeetingTranscriber

/-- Does `cs` start with `p` (character-wise)?  Embeds Python prefix tests. -/
def listStartsWith : List Char → List Char → Bool
  | [], _ => true
  | _ :: _, [] => false
  | p :: ps, c :: cs => p = c && listStartsWith ps cs

/-- Characters of a string with leading and trailing whitespace removed.
Embeds Python `str.strip()`. -/
def trimChars (cs : List Char) : List Char :=
  ((cs.dropWhile Char.isWhitespace).reverse.dropWhile Char.isWhitespace).reverse

/-- Python `s.strip()`. -/
def trimStr (s : String) : String :=
  String.mk (trimChars s.data)

/-- Python `s.lower()` (ASCII case folding, which covers all source strings). -/
def lowerStr (s : String) : String :=
  String.mk (s.data.map Char.toLower)

/-- Fuel-driven core of `str.split(sep)`: splits at each leftmost
non-overlapping occurrence of `sep`.  The fuel is an upper bound on the
number of characters scanned; each step consumes at least one character,
so `length + 1` fuel always suffices. -/
def splitCharsAux (sep : List Char) : ℕ → List Char → List Char → List (List Char)
  | 0, acc, cs => [acc.reverse ++ cs]
  | _ + 1, acc, [] => [acc.reverse]
  | fuel + 1, acc, c :: cs =>
    if listStartsWith sep (c :: cs) then
      acc.reverse :: splitCharsAux sep fuel [] (List.drop sep.length (c :: cs))
    else
      splitCharsAux sep fuel (c :: acc) cs

/-- Python `s.split(sep)` for a non-empty separator. -/
def splitOnStr (s sep : String) : List String :=
  (splitCharsAux sep.data (s.data.length + 1) [] s.data).map String.mk

/-- Does `cs` contain `pat` as a contiguous substring? -/
def hasSubstr (pat : List Char) : List Char → Bool
  | [] => listStartsWith pat []
  | c :: cs => listStartsWith pat (c :: cs) || hasSubstr pat cs

/-- Python `pat in s` (substring containment). -/
def containsSub (s pat : String) : Bool :=
  hasSubstr pat.data s.data

/-- Python `sep.join(strings)`. -/
def joinWith (sep : String) : List String → String
  | [] => ""
  | [s] => s
  | s :: rest => s ++ sep ++ joinWith sep rest

/-- Decidable equality on call outcomes, so that concrete runs can be
checked by `decide`. -/
instance instDecEqExcept {ε α : Type} [DecidableEq ε] [DecidableEq α] :
    DecidableEq (Except ε α) := fun x y =>
  match x, y with
  | .error a, .error b =>
    if h : a = b then .isTrue (by rw [h]) else .isFalse (by simp [h])
  | .ok a, .ok b =>
    if h : a = b then .isTrue (by rw [h]) else .isFalse (by simp [h])
  | .error _, .ok _ => .isFalse (by simp)
  | .ok _, .error _ => .isFalse (by simp)

/-! ## Data model (`src/utils/models.py` = `tami/backend/lib/utils/models.py`)

Times are modelled as `ℚ`: every float the pipeline produces is obtained
from integer timestamps by `+`, `*` and exact division of small values,
all exact in IEEE double, so rational arithmetic is a faithful model. -/

/-- A single segment of transcribed audio (`TranscriptSegment` dataclass). -/
structure TranscriptSegment where
  speaker : String
  text : String
  start_time : ℚ
  end_time : ℚ
  deriving DecidableEq, Repr, Inhabited

/-- A value of the open string-keyed `metadata` map. -/
inductive MetaVal where
  | str (s : String)
  | flag (b : Bool)
  deriving DecidableEq, Repr

/-- Complete transcription result (`TranscriptResult` dataclass). -/
structure TranscriptResult where
  segments : List TranscriptSegment
  language : String
  metadata : List (String × MetaVal)
  deriving DecidableEq, Repr

/-- An action item of a summary (`ActionItem` dataclass).  The `completed`
field of the spec lives only in the persistence layer; the summarizer
constructor has exactly these three fields. -/
structure ActionItem where
  description : String
  assignee : Option String
  deadline : Option String
  deriving DecidableEq, Repr

/-- Meeting summary (`Summary` dataclass). -/
structure Summary where
  overview : String
  key_points : List String
  action_items : List ActionItem
  participants : List String
  deriving DecidableEq, Repr

/-! ## Transcript refinement (`tami/backend/app/services/refinement.py`)

`_refine_full_transcript` is a network call; its outcome is passed in as
`reply : Except Unit String` (`.error` = any exception raised during the
refinement call, `.ok s` = the reply text `s`). -/

/-- One line of the model reply matched against the Python regex
`^([^:]+):\s*(.+)$` (after the line has already been stripped): a
non-empty run of non-colon characters, a colon, and at least one further
character.  Returns the stripped speaker and text groups. -/
def matchSpeakerLine (line : String) : Option (String × String) :=
  match splitOnStr line ":" with
  | p :: q :: rest =>
    let tail := joinWith ":" (q :: rest)
    if p = "" then none
    else if tail = "" then none
    else some (trimStr p, trimStr tail)
  | _ => none

/-- The list of segments successfully re-parsed from the refinement reply
(the loop body of `_parse_refined_transcript`): split into lines, skip
blank lines, keep lines matching `"Speaker: text"`, and give the `idx`-th
line synthetic timing `[idx*d, (idx+1)*d]` where `d` is the last original
segment's end time divided by the number of reply lines. -/
def refinedCandidates (refined_text : String) (original_segments : List TranscriptSegment) :
    List TranscriptSegment :=
  let lines := splitOnStr (trimStr refined_text) "\n"
  let total_duration : ℚ :=
    match original_segments.getLast? with
    | some s => s.end_time
    | none => 0
  let segment_duration : ℚ := total_duration / ((max lines.length 1 : ℕ) : ℚ)
  lines.enum.filterMap fun p =>
    let line := trimStr p.2
    if line = "" then none
    else
      match matchSpeakerLine line with
      | none => none
      | some (speaker_name, text) =>
        some { speaker := speaker_name
               text := text
               start_time := (p.1 : ℚ) * segment_duration
               end_time := ((p.1 : ℚ) + 1) * segment_duration }

/-- `_parse_refined_transcript`: the re-parsed segments, or the original
segments when no line parsed. -/
def parse_refined_transcript (refined_text : String) (original_segments : List TranscriptSegment) :
    List TranscriptSegment :=
  if (refinedCandidates refined_text original_segments).isEmpty then original_segments
  else refinedCandidates refined_text original_segments

/-- `TranscriptRefinementService.refine_transcript`: no-op on
empty/whitespace context; on any exception from the refinement call the
original transcript is returned; otherwise the reply is re-parsed. -/
def refine_transcript (transcript : TranscriptResult) (context : String)
    (reply : Except Unit String) : TranscriptResult :=
  if trimStr context = "" then transcript
  else
    match reply with
    | .error _ => transcript
    | .ok refined_text =>
      { segments := parse_refined_transcript refined_text transcript.segments
        language := transcript.language
        metadata := transcript.metadata }

/-! ## Whisper provider (`src/transcription/whisper.py`)

Each attempt of `_transcribe_with_retry` either returns a response or
raises; the raw outcome of attempt `k` is given by `attempts k`
(`.error msg` = exception with message `msg`). -/

/-- Error kinds of the taxonomy in `src/utils/exceptions.py`:
`APIAuthenticationError`, `APIRateLimitError`, `APINetworkError` and the
catch-all `APIError`. -/
inductive ApiErrorKind where
  | auth
  | rateLimit
  | network
  | generic
  deriving DecidableEq, Repr

/-- A classified API error: its kind together with its message. -/
structure ClassifiedError where
  kind : ApiErrorKind
  message : String
  deriving DecidableEq, Repr

/-- `WhisperTranscriber._handle_api_error`: heuristic classification of an
exception by substring matching on its lowercased message. -/
def handle_api_error (errMsg : String) : ClassifiedError :=
  let s := lowerStr errMsg
  if containsSub s "authentication" || containsSub s "api key" || containsSub s "unauthorized" then
    { kind := .auth, message := "OpenAI API authentication failed: " ++ errMsg }
  else if containsSub s "rate limit" || containsSub s "quota" then
    { kind := .rateLimit, message := "OpenAI API rate limit exceeded: " ++ errMsg }
  else if containsSub s "timeout" || containsSub s "connection" then
    { kind := .network, message := "Network error calling OpenAI API: " ++ errMsg }
  else
    { kind := .generic, message := "OpenAI API error: " ++ errMsg }

/-- Raw response of the Whisper transcriptions endpoint: `{text, language}`. -/
structure WhisperResponse where
  text : String
  language : String
  deriving DecidableEq, Repr

/-- The body of `_transcribe_with_retry` run once: any exception is
converted through `_handle_api_error` and re-raised. -/
def attempt_once (raw : Except String WhisperResponse) : Except ClassifiedError WhisperResponse :=
  match raw with
  | .ok v => .ok v
  | .error msg => .error (handle_api_error msg)

/-- The tenacity retry loop around `_transcribe_with_retry`: attempt `k`
runs; on `APINetworkError` the call is retried while fuel remains, any
other exception is re-raised at once (`retry_if_exception_type` with
`reraise=True`).  Returns the final outcome and the number of attempts
made. -/
def retryLoop (attempts : ℕ → Except String WhisperResponse) :
    ℕ → ℕ → Except ClassifiedError WhisperResponse × ℕ
  | 0, k =>
    match attempt_once (attempts k) with
    | .ok v => (.ok v, k + 1)
    | .error e => (.error e, k + 1)
  | fuel + 1, k =>
    match attempt_once (attempts k) with
    | .ok v => (.ok v, k + 1)
    | .error e =>
      if e.kind = .network then retryLoop attempts fuel (k + 1)
      else (.error e, k + 1)

/-- `_transcribe_with_retry` under `stop_after_attempt(3)`: at most three
attempts in total. -/
def transcribe_with_retry (attempts : ℕ → Except String WhisperResponse) :
    Except ClassifiedError WhisperResponse × ℕ :=
  retryLoop attempts 2 0

/-- Message of the `FileNotFoundError` that `open(audio_path, rb)` raises
for a missing path. -/
def fileNotFoundMsg (path : String) : String :=
  "[Errno 2] No such file or directory: " ++ path

/-- Raw per-attempt outcomes of the Whisper call: opening a non-existent
file raises `FileNotFoundError` before the network is reached; otherwise
attempt `k` has the given API outcome. -/
def whisper_attempts (file_exists : Bool) (path : String)
    (api : ℕ → Except String WhisperResponse) : ℕ → Except String WhisperResponse :=
  fun k => if file_exists then api k else .error (fileNotFoundMsg path)

/-- Errors observable from a provider `transcribe` call: Python
`ValueError`, `AudioFileError`, `ConfigurationError`, or a classified
`APIError` subtype. -/
inductive TranscribeError where
  | valueError (msg : String)
  | audioFileError (msg : String)
  | configError (msg : String)
  | apiError (e : ClassifiedError)
  deriving DecidableEq, Repr

/-- `WhisperTranscriber.transcribe`: run the retried call, wrap the text
into a single segment with zero timestamps and speaker `"Unknown"`; any
exception is classified once more by the outer handler and raised. -/
def whisper_transcribe (file_exists : Bool) (path : String) (model : String)
    (api : ℕ → Except String WhisperResponse) : Except TranscribeError TranscriptResult :=
  match transcribe_with_retry (whisper_attempts file_exists path api) with
  | (.ok resp, _) =>
    .ok { segments := [{ speaker := "Unknown", text := resp.text,
                         start_time := 0, end_time := 0 }]
          language := resp.language
          metadata := [("model", .str model), ("provider", .str "whisper")] }
  | (.error e, _) => .error (.apiError (handle_api_error e.message))

/-! ## Ivrit provider (`src/transcription/ivrit.py`) -/

/-- A segment object of the Ivrit response, exposing `.text`, `.start`,
`.end` (modelled as `stop`, since `end` is a Lean keyword) and
`.speakers`. -/
structure IvritSeg where
  text : String
  start : ℚ
  stop : ℚ
  speakers : List String
  deriving DecidableEq, Repr

/-- The Ivrit response: its segment list and the optional detected
language (`result.get('language', ...)`). -/
structure IvritResponse where
  segments : List IvritSeg
  language : Option String
  deriving DecidableEq, Repr

/-- `IvritTranscriber.transcribe`: reject a non-existent path with
`ValueError`; classify model-load failures (`_initialize_model`) into
authentication vs configuration errors; classify call failures into
authentication vs generic `APIError`; on success map each segment,
taking the first reported speaker (else `"Unknown"`) and stripping the
text. -/
def ivrit_transcribe (file_exists : Bool) (path : String) (language : String) (model : String)
    (loadResult : Except String Unit) (callResult : Except String IvritResponse) :
    Except TranscribeError TranscriptResult :=
  if !file_exists then .error (.valueError ("Audio file not found: " ++ path))
  else
    match loadResult with
    | .error msg =>
      if containsSub (lowerStr msg) "authentication" || containsSub (lowerStr msg) "api key" then
        .error (.apiError { kind := .auth, message := "Ivrit authentication failed: " ++ msg })
      else
        .error (.configError ("Failed to initialize Ivrit model: " ++ msg))
    | .ok _ =>
      match callResult with
      | .error msg =>
        if containsSub (lowerStr msg) "authentication" || containsSub (lowerStr msg) "api key" then
          .error (.apiError { kind := .auth, message := "Ivrit API authentication failed: " ++ msg })
        else
          .error (.apiError { kind := .generic, message := "Ivrit transcription failed: " ++ msg })
      | .ok resp =>
        .ok { segments := resp.segments.map fun seg =>
                { speaker := seg.speakers.headD "Unknown"
                  text := trimStr seg.text
                  start_time := seg.start
                  end_time := seg.stop }
              language := resp.language.getD language
              metadata := [("model", .str model), ("provider", .str "ivrit"),
                           ("engine", .str "runpod"), ("diarization", .flag true)] }

/-! ## Provider routing (`tami/backend/app/services/transcription.py`) -/

/-- `TranscriptionService.LANGUAGE_PROVIDER_MAP`. -/
def LANGUAGE_PROVIDER_MAP : List (String × String) :=
  [("he", "ivrit"), ("en", "whisper")]

/-- `get_provider_for_language`: table lookup with `"whisper"` default. -/
def get_provider_for_language (language : String) : String :=
  (LANGUAGE_PROVIDER_MAP.lookup language).getD "whisper"

/-- `get_model_for_provider`. -/
def get_model_for_provider (provider : String) : String :=
  if provider = "ivrit" then "ivrit-ai/whisper-large-v3-turbo-ct2" else "whisper-1"

/-- Python truthiness of an optional string credential (`None` and `""`
are falsy). -/
def truthyOpt : Option String → Bool
  | none => false
  | some s => s != ""

/-- Steps 2 and 3 of `transcribe_with_auto_routing`: choose provider and
model from the detected language, falling back to Whisper when the Ivrit
credentials or endpoint are missing.  Returns `(provider, model)`. -/
def route_for_transcription (language : String)
    (ivrit_api_key ivrit_endpoint_id : Option String) : String × String :=
  let provider := get_provider_for_language language
  let model := get_model_for_provider provider
  if provider = "ivrit" && truthyOpt ivrit_api_key && truthyOpt ivrit_endpoint_id then
    (provider, model)
  else if provider = "ivrit" && !(truthyOpt ivrit_api_key && truthyOpt ivrit_endpoint_id) then
    ("whisper", "whisper-1")
  else
    (provider, model)

/-! ## Speaker labeling (`src/diarization/speaker_labeler.py`) -/

/-- The generated fallback label `f"Speaker {(idx % 3) + 1}"`. -/
def generated_speaker (idx : ℕ) : String :=
  "Speaker " ++ toString (idx % 3 + 1)

/-- `SpeakerLabeler.label_speakers`: round-robin over the participant
names, or the generated labels when the participant list is empty. -/
def label_speakers (participants : List String) (transcript : TranscriptResult) :
    TranscriptResult :=
  { segments := transcript.segments.enum.map fun p =>
      let speaker_name :=
        if participants.isEmpty then generated_speaker p.1
        else participants.getD (p.1 % participants.length) ""
      { speaker := speaker_name
        text := p.2.text
        start_time := p.2.start_time
        end_time := p.2.end_time }
    language := transcript.language
    metadata := transcript.metadata }

/-! ## Summarizer (`tami/backend/lib/summarization/summarizer.py`)

The chat-completion call either raises (`.error msg`), returns a body
that is not valid JSON (`.ok none`), or returns a parsed JSON object
(`.ok (some j)`); the `.get(..., default)` accesses are modelled by
optional fields. -/

/-- One entry of the `action_items` array of the summary JSON. -/
structure ActionItemJson where
  description : Option String
  assignee : Option String
  deadline : Option String
  deriving DecidableEq, Repr

/-- The summary JSON object with its three optional keys. -/
structure SummaryJson where
  overview : Option String
  key_points : Option (List String)
  action_items : Option (List ActionItemJson)
  deriving DecidableEq, Repr

/-- Errors raised by `generate_summary`: `APIAuthenticationError` or the
generic `APIError`. -/
inductive SummaryError where
  | auth (msg : String)
  | api (msg : String)
  deriving DecidableEq, Repr

set_option linter.unusedVariables false in
/-- `Summarizer.generate_summary`: on a JSON-parse failure return the
degraded fallback summary; on any other exception classify it as
authentication vs generic API error and raise; on success assemble the
`Summary` from the parsed object with defaulted fields.  The transcript
and context only shape the prompt of the modelled call. -/
def generate_summary (transcript : TranscriptResult) (context : String)
    (participants : List String) (reply : Except String (Option SummaryJson)) :
    Except SummaryError Summary :=
  match reply with
  | .ok none =>
    .ok { overview := "Summary generation failed. Please review the transcript."
          key_points := []
          action_items := []
          participants := participants }
  | .ok (some j) =>
    .ok { overview := j.overview.getD ""
          key_points := j.key_points.getD []
          action_items := (j.action_items.getD []).map fun it =>
            { description := it.description.getD ""
              assignee := it.assignee
              deadline := it.deadline }
          participants := participants }
  | .error msg =>
    if containsSub (lowerStr msg) "authentication" || containsSub (lowerStr msg) "api key" then
      .error (.auth ("OpenAI API authentication failed: " ++ msg))
    else
      .error (.api ("Summary generation error: " ++ msg))

/-! ## Entity extraction (`tami/backend/app/services/entity_extraction.py`) -/

/-- Metadata of an extracted entity (`EntityMetadata` pydantic model). -/
structure EntityMetadata where
  currency : Option String
  role : Option String
  amount : Option ℚ
  date_iso : Option String
  deriving DecidableEq, Repr

/-- An entity extracted from text (`ExtractedEntity` pydantic model). -/
structure ExtractedEntity where
  entity : String
  type : String
  normalized_form : String
  context : Option String
  metadata : EntityMetadata
  deriving DecidableEq, Repr

/-- Insertion into the inner dict `grouped[type]` keyed by
`normalized_form`: Python `if key not in d: d[key] = e` — keep the first
occurrence, append new keys at the end (dict insertion order). -/
def updNfDict : List (String × ExtractedEntity) → String → ExtractedEntity →
    List (String × ExtractedEntity)
  | [], key, e => [(key, e)]
  | (k, v) :: rest, key, e =>
    if k = key then (k, v) :: rest
    else (k, v) :: updNfDict rest key e

/-- One loop iteration of `extract_and_deduplicate`: route the entity to
the inner dict of its type, creating the type's entry on first sight. -/
def updTypeDict : List (String × List (String × ExtractedEntity)) → ExtractedEntity →
    List (String × List (String × ExtractedEntity))
  | [], e => [(e.type, [(e.normalized_form, e)])]
  | (t, d) :: rest, e =>
    if t = e.type then (t, updNfDict d e.normalized_form e) :: rest
    else (t, d) :: updTypeDict rest e

/-- The `grouped` nested dict after processing all extracted entities. -/
def groupEntities (entities : List ExtractedEntity) :
    List (String × List (String × ExtractedEntity)) :=
  entities.foldl updTypeDict []

/-- `extract_and_deduplicate` applied to the entity list returned by
`extract_entities`: group by type, deduplicate by `normalized_form`
keeping the first occurrence, and return each type's surviving entities
in insertion order (`list(entities_dict.values())`). -/
def extract_and_deduplicate (entities : List ExtractedEntity) :
    List (String × List ExtractedEntity) :=
  (groupEntities entities).map fun p => (p.1, p.2.map fun q => q.2)

/-- First-match lookup in an inner (normalized-form-keyed) dict. -/
def findNf : List (String × ExtractedEntity) → String → Option ExtractedEntity
  | [], _ => none
  | (k, v) :: rest, key => if k = key then some v else findNf rest key

/-- First-match lookup of a type's inner dict. -/
def findType : List (String × List (String × ExtractedEntity)) → String →
    Option (List (String × ExtractedEntity))
  | [], _ => none
  | (t, d) :: rest, ty => if t = ty then some d else findType rest ty

/-- Lookup of the entity stored for `(type, normalized_form)`. -/
def entLookup (g : List (String × List (String × ExtractedEntity))) (t k : String) :
    Option ExtractedEntity :=
  findNf ((findType g t).getD []) k

/-! ## Text-import parser (`tami/backend/app/services/transcript_parser.py`)

This file declares its own `TranscriptSegment`/`TranscriptResult`
dataclasses; they are modelled separately here.  Every time value the
parser produces is an integer number of seconds (`MM*60+SS`, `+1.0`,
`+5.0`, copies thereof), on which Python float arithmetic is exact, so
its times are modelled as `ℕ`. -/

/-- A parsed segment (the parser's own `TranscriptSegment` dataclass). -/
structure ParsedSegment where
  speaker : String
  text : String
  start_time : ℕ
  end_time : ℕ
  deriving DecidableEq, Repr, Inhabited

/-- A `metadata` value of the parser result (`duration` is numeric,
`source` is a string). -/
inductive ParsedMeta where
  | num (n : ℕ)
  | str (s : String)
  deriving DecidableEq, Repr

/-- The parser's own `TranscriptResult` dataclass. -/
structure ParsedResult where
  segments : List ParsedSegment
  language : String
  metadata : List (String × ParsedMeta)
  deriving DecidableEq, Repr

/-- Case-insensitive keyword match at the start of a character list:
returns the remaining characters after the keyword. -/
def dropKwCI : List Char → List Char → Option (List Char)
  | [], rest => some rest
  | _ :: _, [] => none
  | p :: ps, c :: cs => if c.toLower = p then dropKwCI ps cs else none

/-- Python `re.match(r'Speaker\s+(\d+)', line, re.IGNORECASE)`: the line
starts with `Speaker` (any case), then at least one whitespace character,
then at least one digit; the digit run is returned as group 1. -/
def speakerMatch (line : String) : Option String :=
  match dropKwCI "speaker".data line.data with
  | none => none
  | some rest =>
    let rest2 := rest.dropWhile Char.isWhitespace
    let digits := rest2.takeWhile Char.isDigit
    if (rest.takeWhile Char.isWhitespace).isEmpty then none
    else if digits.isEmpty then none
    else some (String.mk digits)

/-- Numeric value of a digit run, as Python `int` reads it. -/
def digitsToNat (ds : List Char) : ℕ :=
  ds.foldl (fun a c => a * 10 + (c.toNat - 48)) 0

/-- Python `re.match(r'(\d+):(\d+)', line)`: a digit run, a colon, a
digit run; returns `(minutes, seconds)` as numbers. -/
def timestampMatch (line : String) : Option (ℕ × ℕ) :=
  let mins := line.data.takeWhile Char.isDigit
  let rest := line.data.dropWhile Char.isDigit
  if mins.isEmpty then none
  else
    match rest with
    | ':' :: rest2 =>
      let secs := rest2.takeWhile Char.isDigit
      if secs.isEmpty then none
      else some (digitsToNat mins, digitsToNat secs)
    | _ => none

/-- Scanner state of the per-segment line loop: the speaker and timestamp
seen so far and the collected text lines. -/
structure ScanState where
  speaker : Option String
  timestamp : Option ℕ
  text_lines : List String
  deriving DecidableEq, Repr

/-- One iteration of the line loop inside `parse_text_file`: strip the
line, skip it when blank, take it as the speaker if it matches the
speaker pattern and none was seen, else as the timestamp (`MM*60+SS`) if
it matches the timestamp pattern and none was seen, else as text. -/
def scanLine (st : ScanState) (rawLine : String) : ScanState :=
  let line := trimStr rawLine
  if line = "" then st
  else
    match speakerMatch line, st.speaker with
    | some num, none => { st with speaker := some ("speaker_" ++ num) }
    | _, _ =>
      match timestampMatch line, st.timestamp with
      | some (m, s), none => { st with timestamp := some (m * 60 + s) }
      | _, _ => { st with text_lines := st.text_lines ++ [line] }

/-- Processing of one delimiter-separated part (loop body of
`parse_text_file` for `idx ≥ 1`): skip blank parts and parts without
text; default a missing speaker to `speaker_{(idx % 2) + 1}` and a
missing timestamp to the previous segment's end plus one second (zero
for the first segment); the segment's provisional end time is its start
plus five seconds. -/
def processPart (segments : List ParsedSegment) (idx : ℕ) (part : String) :
    List ParsedSegment :=
  if trimStr part = "" then segments
  else
    let lines := splitOnStr (trimStr part) "\n"
    let st := lines.foldl scanLine { speaker := none, timestamp := none, text_lines := [] }
    if st.text_lines.isEmpty then segments
    else
      let speaker := st.speaker.getD ("speaker_" ++ toString (idx % 2 + 1))
      let timestamp :=
        match st.timestamp with
        | some t => t
        | none =>
          match segments.getLast? with
          | some s => s.end_time + 1
          | none => 0
      segments ++ [{ speaker := speaker
                     text := joinWith " " st.text_lines
                     start_time := timestamp
                     end_time := timestamp + 5 }]

/-- The parts loop of `parse_text_file`, starting at Python index `idx`. -/
def processPartsFrom (segments : List ParsedSegment) (idx : ℕ) :
    List String → List ParsedSegment
  | [] => segments
  | p :: rest => processPartsFrom (processPart segments idx p) (idx + 1) rest

/-- End-time fixing after the parts loop: each segment's end time becomes
the next segment's start time; the last keeps start plus five seconds. -/
def fixEndTimes : List ParsedSegment → List ParsedSegment
  | [] => []
  | [s] => [{ s with end_time := s.start_time + 5 }]
  | s :: t :: rest => { s with end_time := t.start_time } :: fixEndTimes (t :: rest)

/-- The final validation loop: any segment with `end_time <= start_time`
is adjusted to `start_time + 5`. -/
def correctTimes (segments : List ParsedSegment) : List ParsedSegment :=
  segments.map fun s =>
    if s.end_time ≤ s.start_time then { s with end_time := s.start_time + 5 } else s

/-- `TranscriptParser.parse_text_file` on the file's content: reject
blank content; split on the `"\nS\n"` delimiter and require at least two
parts; merge the text before the first delimiter into the following
part; process the remaining parts; reject when no segment was built; fix
and validate end times; language defaults to `"he"` and the metadata
records the corrected total duration.  (`ValueError` messages are kept
as raised; the outer handler only re-wraps their text.) -/
def parse_text_file (content : String) : Except String ParsedResult :=
  if trimStr content = "" then .error "Transcript file is empty"
  else
    let parts := splitOnStr content "\nS\n"
    if parts.length < 2 then
      .error "Invalid transcript format: Expected segments separated by S delimiter"
    else
      match parts with
      | [] => .error "Invalid transcript format: Expected segments separated by S delimiter"
      | p0 :: rest =>
        let rest' :=
          if trimStr p0 = "" then rest
          else
            match rest with
            | [] => rest
            | p1 :: tl => (trimStr p0 ++ "\n" ++ p1) :: tl
        let segments := processPartsFrom [] 1 rest'
        if segments.isEmpty then .error "No valid segments found in transcript file"
        else
          let fixed := correctTimes (fixEndTimes segments)
          .ok { segments := fixed
                language := "he"
                metadata := [("duration", .num (((fixed.getLast?).map fun s => s.end_time).getD 0)),
                             ("source", .str "text_import")] }

/-- Does a transcribe outcome reject the input file with the
`AudioFileError`-or-`ValueError` kind the spec demands? -/
def isFileRejection : Except TranscribeError TranscriptResult → Bool
  | .error (.valueError _) => true
  | .error (.audioFileError _) => true
  | _ => false

/-- Invariant of an inner (normalized-form-keyed) dict of `grouped`: keys
are distinct, each key is its entity's `normalized_form`, and each entity
has the dict's type. -/
def NfDictInv (t : String) (d : List (String × ExtractedEntity)) : Prop :=
  (d.map Prod.fst).Nodup ∧ ∀ p ∈ d, p.1 = p.2.normalized_form ∧ p.2.type = t

/-- Invariant of the `grouped` dict: type keys are distinct and every
inner dict satisfies its invariant. -/
def TypeDictInv (g : List (String × List (String × ExtractedEntity))) : Prop :=
  (g.map Prod.fst).Nodup ∧ ∀ p ∈ g, NfDictInv p.1 p.2

/-- A person entity used in concrete deduplication runs. -/
def entJohn : ExtractedEntity :=
  { entity := "John Smith", type := "person", normalized_form := "john smith",
    context := none, metadata := ⟨none, none, none, none⟩ }

/-- A duplicate mention of the same person (same type and normalized
form, different raw text). -/
def entJohn2 : ExtractedEntity :=
  { entity := "john smith", type := "person", normalized_form := "john smith",
    context := some "mentioned again", metadata := ⟨none, none, none, none⟩ }

/-- An organization entity used in concrete deduplication runs. -/
def entAcme : ExtractedEntity :=
  { entity := "Acme", type := "organization", normalized_form := "acme",
    context := none, metadata := ⟨none, none, none, none⟩ }

/-! ## Theorems -/

/-- One network-error retry step of the tenacity loop. -/
theorem retryLoop_network_step (attempts : ℕ → Except String WhisperResponse)
    (fuel k : ℕ) (m : String) (hk : attempts k = .error m)
    (hm : (handle_api_error m).kind = .network) :
    retryLoop attempts (fuel + 1) k = retryLoop attempts fuel (k + 1) := by
  have h1 : retryLoop attempts (fuel + 1) k
      = match attempt_once (attempts k) with
        | .ok v => (.ok v, k + 1)
        | .error e =>
          if e.kind = .network then retryLoop attempts fuel (k + 1)
          else (.error e, k + 1) := rfl
  rw [h1, hk]
  simp [attempt_once, hm]

/-- A successful attempt ends the tenacity loop at once. -/
theorem retryLoop_ok (attempts : ℕ → Except String WhisperResponse)
    (fuel k : ℕ) (v : WhisperResponse) (hk : attempts k = .ok v) :
    retryLoop attempts fuel k = (.ok v, k + 1) := by
  cases fuel <;> (unfold retryLoop; rw [hk]; rfl)

/-- C2: the Whisper transcription call retries classified network errors
with up to 3 total attempts — two `APINetworkError` failures followed by
a success return the successful result after exactly 3 attempts — while
an attempt classified as an authentication or rate-limit error is
re-raised immediately after exactly one attempt. -/
theorem whisper_retry_policy :
    (∀ (attempts : ℕ → Except String WhisperResponse) (v : WhisperResponse) (m0 m1 : String),
      attempts 0 = .error m0 → (handle_api_error m0).kind = .network →
      attempts 1 = .error m1 → (handle_api_error m1).kind = .network →
      attempts 2 = .ok v →
      transcribe_with_retry attempts = (.ok v, 3))
  ∧ (∀ (attempts : ℕ → Except String WhisperResponse) (m : String),
      attempts 0 = .error m →
      ((handle_api_error m).kind = .auth ∨ (handle_api_error m).kind = .rateLimit) →
      transcribe_with_retry attempts = (.error (handle_api_error m), 1)) := by
  constructor
  · intro attempts v m0 m1 h0 k0 h1 k1 h2
    unfold transcribe_with_retry
    rw [retryLoop_network_step attempts 1 0 m0 h0 k0,
        retryLoop_network_step attempts 0 1 m1 h1 k1,
        retryLoop_ok attempts 0 2 v h2]
  · intro attempts m h0 hk
    unfold transcribe_with_retry retryLoop
    rw [h0]
    rcases hk with hk | hk <;> simp [attempt_once, hk]

/-- Witness for C2: a call failing twice with a connection error succeeds
on the third attempt; a call failing with an invalid-API-key error makes
exactly one attempt. -/
theorem whisper_retry_policy_witness :
    transcribe_with_retry
      (fun k => if k < 2 then .error "connection timed out" else .ok ⟨"hi", "en"⟩)
      = (.ok ⟨"hi", "en"⟩, 3)
  ∧ transcribe_with_retry (fun _ => .error "invalid api key")
      = (.error (handle_api_error "invalid api key"), 1) :=
  ⟨whisper_retry_policy.1 _ ⟨"hi", "en"⟩ "connection timed out" "connection timed out"
      (by decide) (by decide) (by decide) (by decide) (by decide),
    whisper_retry_policy.2 _ "invalid api key" rfl (Or.inl (by decide))⟩

/-- C3: routing is a function of language and configuration — `"he"` with
Ivrit configured routes to the Ivrit provider and model; an unmapped
language such as `"xx"` routes to Whisper with `"whisper-1"`; `"he"` with
missing Ivrit credentials or endpoint falls back to Whisper with
`"whisper-1"`. -/
theorem provider_routing (k e : String) (hk : k ≠ "") (he : e ≠ "")
    (key2 ep2 : Option String) :
    route_for_transcription "he" (some k) (some e)
      = ("ivrit", "ivrit-ai/whisper-large-v3-turbo-ct2")
  ∧ route_for_transcription "xx" key2 ep2 = ("whisper", "whisper-1")
  ∧ (∀ key ep : Option String, ¬(truthyOpt key = true ∧ truthyOpt ep = true) →
      route_for_transcription "he" key ep = ("whisper", "whisper-1")) := by
  refine ⟨?_, ?_, ?_⟩
  · simp [route_for_transcription, get_provider_for_language, LANGUAGE_PROVIDER_MAP,
      get_model_for_provider, truthyOpt, bne_iff_ne, hk, he, List.lookup]
  · simp [route_for_transcription, get_provider_for_language, LANGUAGE_PROVIDER_MAP,
      get_model_for_provider, List.lookup]
  · intro key ep hno
    cases h1 : truthyOpt key <;> cases h2 : truthyOpt ep
    · simp [route_for_transcription, get_provider_for_language, LANGUAGE_PROVIDER_MAP,
        get_model_for_provider, List.lookup, h1, h2]
    · simp [route_for_transcription, get_provider_for_language, LANGUAGE_PROVIDER_MAP,
        get_model_for_provider, List.lookup, h1, h2]
    · simp [route_for_transcription, get_provider_for_language, LANGUAGE_PROVIDER_MAP,
        get_model_for_provider, List.lookup, h1, h2]
    · exact absurd ⟨h1, h2⟩ hno

/-- Witness for C3: concrete routes for configured Hebrew, an unmapped
language, and Hebrew with a missing API key. -/
theorem provider_routing_witness :
    route_for_transcription "he" (some "rpa_key") (some "endpoint")
      = ("ivrit", "ivrit-ai/whisper-large-v3-turbo-ct2")
  ∧ route_for_transcription "xx" none none = ("whisper", "whisper-1")
  ∧ route_for_transcription "he" none (some "endpoint") = ("whisper", "whisper-1") := by
  obtain ⟨a, b, c⟩ := provider_routing "rpa_key" "endpoint" (by decide) (by decide) none none
  exact ⟨a, b, c none (some "endpoint") (by decide)⟩

/-- Labeling preserves the number of segments. -/
theorem label_speakers_length (participants : List String) (t : TranscriptResult) :
    (label_speakers participants t).segments.length = t.segments.length := by
  simp [label_speakers]

/-- C4: the i-th segment (0-indexed) is assigned `participants[i % len]`
when the participant list is non-empty, and the generated label
`"Speaker ((i % 3) + 1)"` when it is empty. -/
theorem label_speakers_round_robin (participants : List String) (t : TranscriptResult)
    (i : ℕ) (hi : i < t.segments.length) :
    (∀ hp : participants ≠ [],
      ((label_speakers participants t).segments.getD i default).speaker
        = participants.get ⟨i % participants.length,
            Nat.mod_lt i (List.length_pos.mpr hp)⟩)
  ∧ (participants = [] →
      ((label_speakers participants t).segments.getD i default).speaker
        = "Speaker " ++ toString (i % 3 + 1)) := by
  have hi2 : i < (label_speakers participants t).segments.length := by
    rw [label_speakers_length]; exact hi
  have hval : (label_speakers participants t).segments.getD i default
      = (label_speakers participants t).segments.get ⟨i, hi2⟩ :=
    List.getD_eq_getElem _ _ hi2
  rw [hval]
  have henum : i < t.segments.enum.length := by simpa using hi
  constructor
  · intro hp
    have hlen : 0 < participants.length := List.length_pos.mpr hp
    have hb : i % participants.length < participants.length := Nat.mod_lt i hlen
    simp [label_speakers, List.getElem_map, List.getElem_enum,
      List.isEmpty_iff, hp, List.getElem?_eq_getElem hb]
  · intro hp
    subst hp
    simp [label_speakers, List.getElem_map, List.getElem_enum, generated_speaker]

/-- Witness for C4: concrete round-robin assignments for a two-name
participant list and for an empty participant list. -/
theorem label_speakers_round_robin_witness :
    ((label_speakers ["Alice", "Bob"]
        ⟨[⟨"u", "a", 0, 0⟩, ⟨"u", "b", 0, 0⟩, ⟨"u", "c", 0, 0⟩], "en", []⟩).segments.getD
        2 default).speaker = "Alice"
  ∧ ((label_speakers []
        ⟨[⟨"u", "a", 0, 0⟩, ⟨"u", "b", 0, 0⟩, ⟨"u", "c", 0, 0⟩], "en", []⟩).segments.getD
        2 default).speaker = "Speaker 3" := by
  constructor
  · exact (label_speakers_round_robin ["Alice", "Bob"] _ 2 (by decide)).1 (by decide)
  · exact (label_speakers_round_robin [] _ 2 (by decide)).2 rfl

/-- C5: when the summarizer reply body is not valid JSON,
`generate_summary` returns — instead of raising — the degraded summary:
a non-empty explanatory overview, empty key points and action items, and
the participants passed in. -/
theorem summarizer_json_fallback (transcript : TranscriptResult) (context : String)
    (participants : List String) :
    generate_summary transcript context participants (.ok none)
      = .ok { overview := "Summary generation failed. Please review the transcript."
              key_points := []
              action_items := []
              participants := participants }
  ∧ "Summary generation failed. Please review the transcript." ≠ "" :=
  ⟨rfl, by decide⟩

/-- C1 counterexample: on an input transcript whose segment list is
empty, a non-empty context and a reply in which no line parses, the
fallback returns the original — empty — segment list, so the returned
segment list is not "never empty" as claimed. -/
theorem refine_empty_transcript_empty_segments :
    (refine_transcript ⟨[], "en", []⟩ "meeting context" (.ok "no colon here")).segments
      = [] := by decide

/-- C1 (amended): refinement never propagates a failure — with empty or
whitespace-only context the input transcript is returned unchanged; any
exception during the refinement call returns the input unchanged; a reply
parsing to zero `"Label: text"` lines leaves the original segments; and
whenever the input transcript has at least one segment the returned
segment list is non-empty. -/
theorem refine_transcript_fallback (t : TranscriptResult) (ctx : String)
    (r : Except Unit String) :
    (trimStr ctx = "" → refine_transcript t ctx r = t)
  ∧ (∀ e : Unit, refine_transcript t ctx (.error e) = t)
  ∧ (∀ s : String, refinedCandidates s t.segments = [] →
      (refine_transcript t ctx (.ok s)).segments = t.segments)
  ∧ (t.segments ≠ [] → (refine_transcript t ctx r).segments ≠ []) := by
  refine ⟨?_, ?_, ?_, ?_⟩
  · intro h
    simp [refine_transcript, h]
  · intro e
    unfold refine_transcript
    split
    · rfl
    · rfl
  · intro s h
    unfold refine_transcript
    split
    · rfl
    · simp [parse_refined_transcript, h]
  · intro hne
    unfold refine_transcript
    split
    · exact hne
    · cases r with
      | error e => exact hne
      | ok s =>
        show parse_refined_transcript s t.segments ≠ []
        unfold parse_refined_transcript
        split
        · exact hne
        · next h' => simpa [List.isEmpty_iff] using h'

/-- Witness for C1: the fallback paths and the non-emptiness conclusion
at a concrete one-segment transcript. -/
theorem refine_transcript_fallback_witness :
    refine_transcript ⟨[⟨"A", "hi", 0, 0⟩], "en", []⟩ " " (.ok "X: y")
      = ⟨[⟨"A", "hi", 0, 0⟩], "en", []⟩
  ∧ refine_transcript ⟨[⟨"A", "hi", 0, 0⟩], "en", []⟩ "ctx" (.error ())
      = ⟨[⟨"A", "hi", 0, 0⟩], "en", []⟩
  ∧ (refine_transcript ⟨[⟨"A", "hi", 0, 0⟩], "en", []⟩ "ctx" (.ok "no colon")).segments
      = [⟨"A", "hi", 0, 0⟩]
  ∧ (refine_transcript ⟨[⟨"A", "hi", 0, 0⟩], "en", []⟩ "ctx" (.ok "X: y")).segments ≠ [] :=
  ⟨(refine_transcript_fallback _ _ _).1 (by decide),
    (refine_transcript_fallback _ _ (.error ())).2.1 (),
    (refine_transcript_fallback _ _ (.ok "no colon")).2.2.1 "no colon" (by decide),
    (refine_transcript_fallback _ _ _).2.2.2 (by decide)⟩

/-- C10 (implicit): when the transcript being refined is a single segment
with zero start and end time — the shape the Whisper provider returns —
and the reply parses to at least one line, every refined segment carries
the synthetic timing `0.0`/`0.0`, because the synthetic duration is a
fraction of the last original end time, which is zero. -/
theorem refine_zero_duration_timing (t : TranscriptResult) (ctx reply sp tx : String)
    (hseg : t.segments = [⟨sp, tx, 0, 0⟩])
    (hctx : trimStr ctx ≠ "")
    (hparse : refinedCandidates reply t.segments ≠ []) :
    ∀ s ∈ (refine_transcript t ctx (.ok reply)).segments,
      s.start_time = 0 ∧ s.end_time = 0 := by
  intro s hs
  unfold refine_transcript at hs
  rw [if_neg hctx] at hs
  have hcond : ¬((refinedCandidates reply t.segments).isEmpty = true) := by
    simpa [List.isEmpty_iff] using hparse
  replace hs : s ∈ parse_refined_transcript reply t.segments := hs
  unfold parse_refined_transcript at hs
  rw [if_neg hcond] at hs
  rw [hseg] at hs
  simp only [refinedCandidates, List.getLast?_singleton] at hs
  rcases List.mem_filterMap.mp hs with ⟨p, hp, hf⟩
  split at hf
  · exact absurd hf (by simp)
  · split at hf
    · exact absurd hf (by simp)
    · rw [Option.some.injEq] at hf
      subst hf
      constructor <;> simp

/-- Witness for C10: a concrete zero-duration transcript refined from the
reply `"A: b"` yields only zero-timed segments. -/
theorem refine_zero_duration_timing_witness :
    trimStr "budget meeting" ≠ ""
  ∧ refinedCandidates "A: b" [⟨"Unknown", "hello", 0, 0⟩] ≠ []
  ∧ ∀ s ∈ (refine_transcript ⟨[⟨"Unknown", "hello", 0, 0⟩], "en", []⟩ "budget meeting"
        (.ok "A: b")).segments, s.start_time = 0 ∧ s.end_time = 0 :=
  ⟨by decide, by decide,
    refine_zero_duration_timing _ _ _ "Unknown" "hello" rfl (by decide) (by decide)⟩

/-- C7 counterexample: the Whisper provider does not validate the input
path; the `FileNotFoundError` raised by `open` flows through the
string-matching classifier and surfaces as a generic `APIError` — not as
the `AudioFileError`/`ValueError` rejection the claim states. -/
theorem whisper_missing_file_classified_generic :
    isFileRejection (whisper_transcribe false "/tmp/missing.wav" "whisper-1"
        (fun _ => .ok ⟨"hi", "en"⟩)) = false
  ∧ whisper_transcribe false "/tmp/missing.wav" "whisper-1" (fun _ => .ok ⟨"hi", "en"⟩)
      = .error (.apiError ⟨.generic,
          "OpenAI API error: OpenAI API error: [Errno 2] No such file or directory: /tmp/missing.wav"⟩) := by
  constructor <;> decide

/-- C7 (amended): for a non-existent input path the Ivrit provider
rejects the call with `ValueError`, while the Whisper provider raises a
classified `APIError` (generic for ordinary paths) produced by its
heuristic error classifier rather than an `AudioFileError`/`ValueError`. -/
theorem missing_path_rejection (path lang model : String)
    (api : ℕ → Except String WhisperResponse)
    (load : Except String Unit) (call : Except String IvritResponse) :
    ivrit_transcribe false path lang model load call
      = .error (.valueError ("Audio file not found: " ++ path))
  ∧ ∃ err : ClassifiedError,
      whisper_transcribe false path model api = .error (.apiError err) := by
  constructor
  · rfl
  · have hatt : ∀ j, whisper_attempts false path api j = .error (fileNotFoundMsg path) :=
      fun j => rfl
    have hconst : ∀ fuel k, ∃ n, retryLoop (whisper_attempts false path api) fuel k
        = (.error (handle_api_error (fileNotFoundMsg path)), n) := by
      intro fuel
      induction fuel with
      | zero =>
        intro k
        refine ⟨k + 1, ?_⟩
        have h0 : retryLoop (whisper_attempts false path api) 0 k
            = match attempt_once (whisper_attempts false path api k) with
              | .ok v => (.ok v, k + 1)
              | .error e => (.error e, k + 1) := rfl
        rw [h0, hatt k]
        rfl
      | succ f ih =>
        intro k
        by_cases hnet : (handle_api_error (fileNotFoundMsg path)).kind = .network
        · obtain ⟨n, hn⟩ := ih (k + 1)
          exact ⟨n, by rw [retryLoop_network_step _ f k _ (hatt k) hnet, hn]⟩
        · refine ⟨k + 1, ?_⟩
          have h1 : retryLoop (whisper_attempts false path api) (f + 1) k
              = match attempt_once (whisper_attempts false path api k) with
                | .ok v => (.ok v, k + 1)
                | .error e =>
                  if e.kind = .network then retryLoop (whisper_attempts false path api) f (k + 1)
                  else (.error e, k + 1) := rfl
          rw [h1, hatt k]
          simp [attempt_once, hnet]
    obtain ⟨n, hn⟩ := hconst 2 0
    refine ⟨handle_api_error (handle_api_error (fileNotFoundMsg path)).message, ?_⟩
    unfold whisper_transcribe transcribe_with_retry
    rw [hn]

/-- C8 counterexample: parsing the claimed text-import file yields exactly
one segment, not two — the leading `S` line is not treated as a delimiter
at the start of the file, so the whole content collapses into a single
block. -/
theorem text_import_example_segment_count :
    (parse_text_file "S\nSpeaker 1\n00:05\nHello\nS\nSpeaker 2\n00:10\nWorld").map
      (fun r => r.segments.length) = .ok 1 := by decide

/-- C8 (amended): parsing the file
`"S\nSpeaker 1\n00:05\nHello\nS\nSpeaker 2\n00:10\nWorld"` yields exactly
one segment with speaker `speaker_1`, text
`"S Hello Speaker 2 00:10 World"` (the second block's speaker and
timestamp lines become text because a speaker and timestamp were already
seen), start time 5.0 and end time 10.0. -/
theorem text_import_example_parse :
    parse_text_file "S\nSpeaker 1\n00:05\nHello\nS\nSpeaker 2\n00:10\nWorld"
      = .ok { segments := [{ speaker := "speaker_1", text := "S Hello Speaker 2 00:10 World",
                             start_time := 5, end_time := 10 }],
              language := "he",
              metadata := [("duration", .num 10), ("source", .str "text_import")] } := by
  decide

/-- Every segment surviving the final validation loop has an end time at
least its start time. -/
theorem correctTimes_start_le_end (l : List ParsedSegment) :
    ∀ s ∈ correctTimes l, s.start_time ≤ s.end_time := by
  intro s hs
  unfold correctTimes at hs
  rcases List.mem_map.mp hs with ⟨x, hx, hfx⟩
  subst hfx
  by_cases h : x.end_time ≤ x.start_time
  all_goals simp [h]
  all_goals omega

/-- C9: whenever the text-import parser succeeds, every returned segment
satisfies `end_time >= start_time` — violating segments were corrected to
`start_time + 5` by the validation loop. -/
theorem parse_text_file_end_ge_start (content : String) (r : ParsedResult)
    (h : parse_text_file content = .ok r) :
    ∀ s ∈ r.segments, s.start_time ≤ s.end_time := by
  simp only [parse_text_file] at h
  split at h
  · exact absurd h (by simp)
  · split at h
    · exact absurd h (by simp)
    · split at h
      · exact absurd h (by simp)
      · split at h <;> split at h
        · exact absurd h (by simp)
        · rw [Except.ok.injEq] at h
          subst h
          exact correctTimes_start_le_end _
        · exact absurd h (by simp)
        · rw [Except.ok.injEq] at h
          subst h
          exact correctTimes_start_le_end _

/-- Witness for C9: the invariant holds on a concretely parsed file. -/
theorem parse_text_file_end_ge_start_witness :
    parse_text_file "Hello\nS\nWorld"
      = .ok ⟨[⟨"speaker_2", "Hello World", 0, 5⟩], "he",
             [("duration", .num 5), ("source", .str "text_import")]⟩
  ∧ ∀ s ∈ ([⟨"speaker_2", "Hello World", 0, 5⟩] : List ParsedSegment),
      s.start_time ≤ s.end_time :=
  ⟨by decide,
    parse_text_file_end_ge_start "Hello\nS\nWorld"
      ⟨[⟨"speaker_2", "Hello World", 0, 5⟩], "he",
        [("duration", .num 5), ("source", .str "text_import")]⟩ (by decide)⟩

/-- Keep-first insertion: looking up any key after an insertion finds the
old entry if present, the inserted entity only for its own fresh key. -/
theorem findNf_updNfDict (d : List (String × ExtractedEntity)) (key : String)
    (e : ExtractedEntity) (k : String) :
    findNf (updNfDict d key e) k
      = if k = key then some ((findNf d key).getD e) else findNf d k := by
  induction d with
  | nil =>
    by_cases h : k = key
    · subst h; simp [updNfDict, findNf]
    · simp [updNfDict, findNf, h, Ne.symm h]
  | cons p rest ih =>
    obtain ⟨k0, v0⟩ := p
    by_cases h0 : k0 = key
    · subst h0
      simp only [updNfDict, if_pos rfl]
      by_cases hk : k0 = k
      · subst hk; simp [findNf]
      · simp [findNf, hk, Ne.symm hk]
    · simp only [updNfDict, if_neg h0]
      by_cases hk : k0 = k
      · subst hk
        simp [findNf, h0]
      · simp [findNf, hk, h0, ih]

/-- The type-level analogue of `findNf_updNfDict`. -/
theorem findType_updTypeDict (g : List (String × List (String × ExtractedEntity)))
    (e : ExtractedEntity) (t : String) :
    findType (updTypeDict g e) t
      = if t = e.type then some (updNfDict ((findType g t).getD []) e.normalized_form e)
        else findType g t := by
  induction g with
  | nil =>
    by_cases h : t = e.type
    · subst h; simp [updTypeDict, findType, updNfDict]
    · simp [updTypeDict, findType, h, Ne.symm h]
  | cons p rest ih =>
    obtain ⟨t0, d0⟩ := p
    by_cases h0 : t0 = e.type
    · simp only [updTypeDict, if_pos h0]
      by_cases ht : t0 = t
      · subst ht
        simp [findType, h0]
      · have hte : ¬t = e.type := fun hh => ht (h0.trans hh.symm)
        simp [findType, ht, hte]
    · simp only [updTypeDict, if_neg h0]
      by_cases ht : t0 = t
      · subst ht
        simp [findType, h0]
      · simp [findType, ht, ih]

/-- Processing one entity only fills the hole at its own
`(type, normalized_form)` slot; every other slot is untouched. -/
theorem entLookup_updTypeDict (g : List (String × List (String × ExtractedEntity)))
    (e : ExtractedEntity) (t k : String) :
    entLookup (updTypeDict g e) t k
      = if t = e.type ∧ k = e.normalized_form then some ((entLookup g t k).getD e)
        else entLookup g t k := by
  unfold entLookup
  rw [findType_updTypeDict]
  by_cases ht : t = e.type
  · rw [if_pos ht, Option.getD_some]
    rw [findNf_updNfDict]
    by_cases hk : k = e.normalized_form
    · rw [if_pos hk, if_pos ⟨ht, hk⟩, hk]
    · rw [if_neg hk, if_neg (fun hc => hk hc.2)]
  · rw [if_neg ht, if_neg (fun hc => ht hc.1)]

/-- The folded `grouped` dict stores, at each `(type, normalized_form)`
slot, the first entity of the processed list with that type and
normalized form (unless the slot was already taken). -/
theorem entLookup_foldl (es : List ExtractedEntity) :
    ∀ (g : List (String × List (String × ExtractedEntity))) (t k : String),
      entLookup (es.foldl updTypeDict g) t k
        = match entLookup g t k with
          | some v => some v
          | none => es.find? fun x => x.type == t && x.normalized_form == k := by
  induction es with
  | nil =>
    intro g t k
    cases h : entLookup g t k <;> simp [h]
  | cons e es ih =>
    intro g t k
    rw [List.foldl_cons, ih, entLookup_updTypeDict]
    by_cases hc : t = e.type ∧ k = e.normalized_form
    · rw [if_pos hc]
      have hpe : (fun x : ExtractedEntity => x.type == t && x.normalized_form == k) e = true := by
        simp only [Bool.and_eq_true, beq_iff_eq]
        exact ⟨hc.1.symm, hc.2.symm⟩
      cases h : entLookup g t k with
      | some v => simp [h]
      | none =>
        simp only [h, Option.getD_none]
        exact (List.find?_cons_of_pos
          (p := fun x : ExtractedEntity => x.type == t && x.normalized_form == k)
          (a := e) es hpe).symm
    · rw [if_neg hc]
      have hpe : ¬((fun x : ExtractedEntity =>
          x.type == t && x.normalized_form == k) e = true) := by
        simp only [Bool.and_eq_true, beq_iff_eq]
        intro hb
        exact hc ⟨hb.1.symm, hb.2.symm⟩
      cases h : entLookup g t k with
      | some v => simp [h]
      | none =>
        simp only [h]
        exact (List.find?_cons_of_neg
          (p := fun x : ExtractedEntity => x.type == t && x.normalized_form == k)
          (a := e) es hpe).symm

/-- Inserting an already-present key leaves the dict unchanged. -/
theorem updNfDict_eq_of_mem (d : List (String × ExtractedEntity)) (key : String)
    (e : ExtractedEntity) (h : key ∈ d.map Prod.fst) :
    updNfDict d key e = d := by
  induction d with
  | nil => simp at h
  | cons p rest ih =>
    obtain ⟨k0, v0⟩ := p
    by_cases h0 : k0 = key
    · simp [updNfDict, h0]
    · simp only [List.map_cons, List.mem_cons] at h
      rcases h with h | h
      · exact absurd h.symm h0
      · simp [updNfDict, h0, ih h]

/-- Inserting a fresh key appends the entry at the end. -/
theorem updNfDict_eq_append (d : List (String × ExtractedEntity)) (key : String)
    (e : ExtractedEntity) (h : key ∉ d.map Prod.fst) :
    updNfDict d key e = d ++ [(key, e)] := by
  induction d with
  | nil => simp [updNfDict]
  | cons p rest ih =>
    obtain ⟨k0, v0⟩ := p
    simp only [List.map_cons, List.mem_cons, not_or] at h
    obtain ⟨h1, h2⟩ := h
    have h1b : ¬k0 = key := fun heq => h1 heq.symm
    simp [updNfDict, h1b, ih h2]

/-- Keep-first insertion preserves the inner-dict invariant. -/
theorem nfDictInv_updNfDict (t : String) (d : List (String × ExtractedEntity))
    (e : ExtractedEntity) (hinv : NfDictInv t d) (he : e.type = t) :
    NfDictInv t (updNfDict d e.normalized_form e) := by
  by_cases h : e.normalized_form ∈ d.map Prod.fst
  · rw [updNfDict_eq_of_mem _ _ _ h]; exact hinv
  · rw [updNfDict_eq_append _ _ _ h]
    refine ⟨?_, ?_⟩
    · rw [List.map_append, List.nodup_append]
      refine ⟨hinv.1, by simp, ?_⟩
      intro x hx hx2
      simp only [List.map_cons, List.map_nil, List.mem_singleton] at hx2
      subst hx2
      exact h hx
    · intro p hp
      rcases List.mem_append.mp hp with hp | hp
      · exact hinv.2 p hp
      · simp only [List.mem_singleton] at hp
        subst hp
        exact ⟨rfl, he⟩

/-- A key of the updated `grouped` dict is an old key or the new
entity's type. -/
theorem mem_keys_updTypeDict (g : List (String × List (String × ExtractedEntity)))
    (e : ExtractedEntity) (x : String)
    (hx : x ∈ (updTypeDict g e).map Prod.fst) :
    x ∈ g.map Prod.fst ∨ x = e.type := by
  induction g with
  | nil =>
    simp [updTypeDict] at hx
    simp [hx]
  | cons p rest ih =>
    obtain ⟨t0, d0⟩ := p
    by_cases h0 : t0 = e.type
    · simp only [updTypeDict, if_pos h0, List.map_cons, List.mem_cons] at hx
      rcases hx with hx | hx
      · exact Or.inl (by simp [hx])
      · exact Or.inl (by simp [hx])
    · simp only [updTypeDict, if_neg h0, List.map_cons, List.mem_cons] at hx
      rcases hx with hx | hx
      · exact Or.inl (by simp [hx])
      · rcases ih hx with h | h
        · exact Or.inl (by simp [h])
        · exact Or.inr h

/-- One loop iteration preserves the `grouped` invariant. -/
theorem typeDictInv_updTypeDict (g : List (String × List (String × ExtractedEntity)))
    (e : ExtractedEntity) (hinv : TypeDictInv g) :
    TypeDictInv (updTypeDict g e) := by
  induction g with
  | nil =>
    refine ⟨by simp [updTypeDict], ?_⟩
    intro p hp
    simp only [updTypeDict, List.mem_singleton] at hp
    subst hp
    refine ⟨by simp, ?_⟩
    intro q hq
    simp only [List.mem_singleton] at hq
    subst hq
    exact ⟨rfl, rfl⟩
  | cons p rest ih =>
    obtain ⟨t0, d0⟩ := p
    obtain ⟨hnd, hmem⟩ := hinv
    rw [List.map_cons, List.nodup_cons] at hnd
    obtain ⟨hn0, hndrest⟩ := hnd
    by_cases h0 : t0 = e.type
    · simp only [updTypeDict, if_pos h0]
      refine ⟨?_, ?_⟩
      · rw [List.map_cons, List.nodup_cons]
        exact ⟨by simpa using hn0, hndrest⟩
      · intro q hq
        rcases List.mem_cons.mp hq with hq | hq
        · subst hq
          exact nfDictInv_updNfDict _ _ _ (hmem (t0, d0) (List.mem_cons_self _ _)) h0.symm
        · exact hmem q (List.mem_cons_of_mem _ hq)
    · simp only [updTypeDict, if_neg h0]
      have hrest : TypeDictInv (updTypeDict rest e) :=
        ih ⟨hndrest, fun q hq => hmem q (List.mem_cons_of_mem _ hq)⟩
      refine ⟨?_, ?_⟩
      · rw [List.map_cons, List.nodup_cons]
        refine ⟨?_, hrest.1⟩
        intro hmem0
        rcases mem_keys_updTypeDict _ _ _ hmem0 with h | h
        · exact hn0 h
        · exact h0 h
      · intro q hq
        rcases List.mem_cons.mp hq with hq | hq
        · subst hq
          exact hmem (t0, d0) (List.mem_cons_self _ _)
        · exact hrest.2 q hq

/-- The full fold preserves the `grouped` invariant. -/
theorem typeDictInv_foldl (es : List ExtractedEntity) :
    ∀ g, TypeDictInv g → TypeDictInv (es.foldl updTypeDict g) := by
  induction es with
  | nil => intro g h; exact h
  | cons e es ih =>
    intro g h
    rw [List.foldl_cons]
    exact ih _ (typeDictInv_updTypeDict g e h)

/-- `grouped` built from any entity list satisfies the invariant. -/
theorem typeDictInv_groupEntities (es : List ExtractedEntity) :
    TypeDictInv (groupEntities es) :=
  typeDictInv_foldl es [] ⟨by simp, by simp⟩

/-- With distinct keys, membership determines the lookup result. -/
theorem findType_of_mem (g : List (String × List (String × ExtractedEntity)))
    (t : String) (d : List (String × ExtractedEntity))
    (hnd : (g.map Prod.fst).Nodup) (hmem : (t, d) ∈ g) :
    findType g t = some d := by
  induction g with
  | nil => cases hmem
  | cons p rest ih =>
    obtain ⟨t0, d0⟩ := p
    rw [List.map_cons, List.nodup_cons] at hnd
    rcases List.mem_cons.mp hmem with h | h
    · rw [Prod.mk.injEq] at h
      obtain ⟨rfl, rfl⟩ := h
      simp [findType]
    · have ht0 : t0 ≠ t := by
        rintro rfl
        exact hnd.1 (List.mem_map.mpr ⟨(t0, d), h, rfl⟩)
      simp only [findType, if_neg ht0]
      exact ih hnd.2 h

/-- With distinct keys, membership determines the inner lookup result. -/
theorem findNf_of_mem (d : List (String × ExtractedEntity))
    (k : String) (v : ExtractedEntity)
    (hnd : (d.map Prod.fst).Nodup) (hmem : (k, v) ∈ d) :
    findNf d k = some v := by
  induction d with
  | nil => cases hmem
  | cons p rest ih =>
    obtain ⟨k0, v0⟩ := p
    rw [List.map_cons, List.nodup_cons] at hnd
    rcases List.mem_cons.mp hmem with h | h
    · rw [Prod.mk.injEq] at h
      obtain ⟨rfl, rfl⟩ := h
      simp [findNf]
    · have hk0 : k0 ≠ k := by
        rintro rfl
        exact hnd.1 (List.mem_map.mpr ⟨(k0, v), h, rfl⟩)
      simp only [findNf, if_neg hk0]
      exact ih hnd.2 h

/-- C6: `extract_and_deduplicate` never returns two entities of the same
type with equal `normalized_form`, and each surviving entity is the first
occurrence (in extraction order) of its `(type, normalized_form)` pair. -/
theorem extract_and_deduplicate_no_duplicates (entities : List ExtractedEntity)
    (t : String) (l : List ExtractedEntity)
    (hmem : (t, l) ∈ extract_and_deduplicate entities) :
    (l.map fun e => e.normalized_form).Nodup
  ∧ ∀ e ∈ l, entities.find?
      (fun x => x.type == t && x.normalized_form == e.normalized_form) = some e := by
  have hinv := typeDictInv_groupEntities entities
  unfold extract_and_deduplicate at hmem
  rcases List.mem_map.mp hmem with ⟨⟨t2, d⟩, hd, heq⟩
  rw [Prod.mk.injEq] at heq
  obtain ⟨rfl, rfl⟩ := heq
  have hdinv : NfDictInv t2 d := hinv.2 (t2, d) hd
  constructor
  · have hmapeq : (d.map fun q => q.2).map (fun e => e.normalized_form)
        = d.map Prod.fst := by
      rw [List.map_map]
      exact List.map_congr_left fun q hq => ((hdinv.2 q hq).1).symm
    rw [hmapeq]
    exact hdinv.1
  · intro e he
    rcases List.mem_map.mp he with ⟨⟨k, e2⟩, hq, rfl⟩
    have hk : k = e2.normalized_form := (hdinv.2 (k, e2) hq).1
    have hfind : findNf d e2.normalized_form = some e2 := by
      apply findNf_of_mem _ _ _ hdinv.1
      rw [← hk]
      exact hq
    have hlook : entLookup (groupEntities entities) t2 e2.normalized_form = some e2 := by
      unfold entLookup
      rw [findType_of_mem _ _ _ hinv.1 hd, Option.getD_some]
      exact hfind
    have hfold : entLookup (groupEntities entities) t2 e2.normalized_form
        = entities.find? fun x =>
            x.type == t2 && x.normalized_form == e2.normalized_form := by
      have h0 := entLookup_foldl entities [] t2 e2.normalized_form
      simpa [entLookup, findType, findNf, groupEntities] using h0
    rw [hlook] at hfold
    exact hfold.symm

/-- Witness for C6: deduplicating a list with a repeated person keeps only
the first `john smith` mention in the person bucket. -/
theorem extract_and_deduplicate_no_duplicates_witness :
    ("person", [entJohn]) ∈ extract_and_deduplicate [entJohn, entJohn2, entAcme]
  ∧ ([entJohn].map fun e => e.normalized_form).Nodup
  ∧ ∀ e ∈ [entJohn], ([entJohn, entJohn2, entAcme].find?
      fun x => x.type == "person" && x.normalized_form == e.normalized_form) = some e := by
  have h := extract_and_deduplicate_no_duplicates [entJohn, entJohn2, entAcme]
    "person" [entJohn] (by decide)
  exact ⟨by decide, h.1, h.2⟩

end MeetingTranscriber
